import Mathlib

/-!
Verification development for the `sql-helper` repository.

The Rust sources are shallowly embedded as executable Lean definitions:

* strings are `List Char` (the relevant code is ASCII; Rust's Unicode
  whitespace/uppercase behaviour coincides with Lean's on the characters
  that can actually occur here);
* `usize` values are `Nat`, with the one place where unsigned arithmetic
  can underflow (Rust panics in that case) modelled by an explicit
  panic outcome;
* Rust panics (`panic!`, `unimplemented!`, slice-index aborts, integer
  underflow aborts) are explicit constructors of the result types;
* the live database is an oracle `DbClient`: `prepare` returns either the
  database-reported parameter-type list of a statement or an error, and
  `execute` returns an optional error.  This matches the consumed
  collaborator interface of the code (`client.prepare`, `client.execute`);
  the synthesized random argument values do not influence the embedded
  control flow except through `data_for_type` support, which is modelled
  exactly.
-/

/-- SQL state (error code) reported by the database; only the two
whitelisted codes are compared by identity in the sources. -/
inductive SqlState where
  | foreignKeyViolation
  | checkViolation
  | otherCode (code : String)
deriving DecidableEq, Repr

/-- A database error: `code` is `some c` when `error.as_db_error()` exposes a
SQLSTATE, `none` for transport-level errors; `message` is the diagnostic. -/
structure PgError where
  code : Option SqlState
  message : String
deriving DecidableEq, Repr

/-- The postgres types appearing in the sources' match arms
(`postgres::types::Type`); `other` covers every type outside the closed
catalog (the `_` arms of the Rust matches). -/
inductive PgType where
  | bool | boolArray
  | bytea | byteaArray
  | char | charArray
  | int8 | int8Array
  | int4 | int4Array
  | int2 | int2Array
  | float8 | float8Array
  | float4 | float4Array
  | text | textArray
  | varchar | varcharArray
  | timestamp | timestampArray
  | timestamptz | timestamptzArray
  | date | dateArray
  | time | timeArray
  | uuid | uuidArray
  | other (name : String)
deriving DecidableEq, Repr

/-- The postgres name of a type (`Type::to_string()` / `Type::name()`),
used by the sources when formatting errors; array types use the catalog
names `_bool`, `_int4`, and so on. -/
def pgTypeName : PgType → String
  | .bool => "bool" | .boolArray => "_bool"
  | .bytea => "bytea" | .byteaArray => "_bytea"
  | .char => "char" | .charArray => "_char"
  | .int8 => "int8" | .int8Array => "_int8"
  | .int4 => "int4" | .int4Array => "_int4"
  | .int2 => "int2" | .int2Array => "_int2"
  | .float8 => "float8" | .float8Array => "_float8"
  | .float4 => "float4" | .float4Array => "_float4"
  | .text => "text" | .textArray => "_text"
  | .varchar => "varchar" | .varcharArray => "_varchar"
  | .timestamp => "timestamp" | .timestampArray => "_timestamp"
  | .timestamptz => "timestamptz" | .timestamptzArray => "_timestamptz"
  | .date => "date" | .dateArray => "_date"
  | .time => "time" | .timeArray => "_time"
  | .uuid => "uuid" | .uuidArray => "_uuid"
  | .other n => n

/-- Shape of a synthesized dummy value, mirroring the expressions built by
`Operation::data_for_type` (crates/sql-helper/src/operation.rs).  Random
payloads record only their structure and length; temporal constants record
their literal fields; `wallClockNow` is `jiff::Timestamp::now()`.
`arrayFill` is a `vec![init; n]` subsequently filled with independent random
elements, `arrayRepl` is `vec![value; n]` replicating one value. -/
inductive SynthPayload where
  | randBool
  | randInt8
  | randInt16
  | randInt32
  | randInt64
  | randFloat32
  | randFloat64
  | randBytes (len : Nat)
  | randAlphanumeric (len : Nat)
  | constDateTime (year month day hour minute second nano : Int)
  | wallClockNow
  | constDate (year month day : Int)
  | constTime (hour minute second nano : Int)
  | freshUuid
  | arrayFill (elem : SynthPayload) (len : Nat)
  | arrayRepl (elem : SynthPayload) (len : Nat)
deriving DecidableEq, Repr

/-- Embedding of `Operation::data_for_type`
(crates/sql-helper/src/operation.rs, lines 231-346): the shape of the
value generated for each supported parameter type, `none` for the `_`
fallthrough arm. -/
def dataForType : PgType → Option SynthPayload
  | .bool => some .randBool
  | .boolArray => some (.arrayFill .randBool 4)
  | .bytea => some (.randBytes 32)
  | .byteaArray => some (.arrayRepl (.randBytes 32) 2)
  | .char => some .randInt8
  | .charArray => some (.arrayFill .randInt8 4)
  | .int8 => some .randInt64
  | .int8Array => some (.arrayFill .randInt64 4)
  | .int4 => some .randInt32
  | .int4Array => some (.arrayFill .randInt32 4)
  | .int2 => some .randInt16
  | .int2Array => some (.arrayFill .randInt16 4)
  | .float8 => some .randFloat64
  | .float8Array => some (.arrayFill .randFloat64 4)
  | .float4 => some .randFloat32
  | .float4Array => some (.arrayFill .randFloat32 4)
  | .text => some (.randAlphanumeric 32)
  | .varchar => some (.randAlphanumeric 32)
  | .textArray => some (.arrayRepl (.randAlphanumeric 4) 4)
  | .varcharArray => some (.arrayRepl (.randAlphanumeric 4) 4)
  | .timestamp => some (.constDateTime 2024 2 29 21 30 5 123456789)
  | .timestampArray => some (.arrayRepl (.constDateTime 2024 2 29 21 30 5 123456789) 4)
  | .timestamptz => some .wallClockNow
  | .timestamptzArray => some (.arrayRepl .wallClockNow 4)
  | .date => some (.constDate 2024 2 29)
  | .dateArray => some (.arrayRepl (.constDate 2024 2 29) 4)
  | .time => some (.constTime 21 30 5 123456789)
  | .timeArray => some (.arrayRepl (.constTime 21 30 5 123456789) 4)
  | .uuid => some .freshUuid
  | .uuidArray => some (.arrayRepl .freshUuid 4)
  | .other _ => none

/-- The array forms of the supported catalog types. -/
def isArrayType : PgType → Bool
  | .boolArray | .byteaArray | .charArray | .int8Array | .int4Array
  | .int2Array | .float8Array | .float4Array | .textArray | .varcharArray
  | .timestampArray | .timestamptzArray | .dateArray | .timeArray
  | .uuidArray => true
  | _ => false

/-- The temporal catalog types (instant, date and time types and their
array forms). -/
def isTemporalType : PgType → Bool
  | .timestamp | .timestampArray | .timestamptz | .timestamptzArray
  | .date | .dateArray | .time | .timeArray => true
  | _ => false

/-- Number of elements of a synthesized array payload. -/
def payloadArrayLen : SynthPayload → Option Nat
  | .arrayFill _ n => some n
  | .arrayRepl _ n => some n
  | _ => none

/-- Whether a synthesized temporal payload is built from fixed literal
constants (as opposed to the wall clock), looking through array wrappers. -/
def payloadFixedTemporal : SynthPayload → Bool
  | .constDateTime _ _ _ _ _ _ _ => true
  | .constDate _ _ _ => true
  | .constTime _ _ _ _ => true
  | .arrayFill e _ => payloadFixedTemporal e
  | .arrayRepl e _ => payloadFixedTemporal e
  | _ => false

/-- Length of a random byte or character sequence payload. -/
def payloadRandLen : SynthPayload → Option Nat
  | .randBytes n => some n
  | .randAlphanumeric n => some n
  | _ => none

/-- Array length of the value synthesized for a type. -/
def synthArrayLen (t : PgType) : Option Nat :=
  (dataForType t).bind payloadArrayLen

/-- Random-sequence length of the value synthesized for a type. -/
def synthRandLen (t : PgType) : Option Nat :=
  (dataForType t).bind payloadRandLen

/-- Whether the value synthesized for a type is made of fixed temporal
literals. -/
def synthTemporalFixed (t : PgType) : Option Bool :=
  (dataForType t).map payloadFixedTemporal

/-- State of the annotation scanner
(crates/sql-helper-derive/src/query/parameters.rs, `get_param_types`). -/
inductive ScanState where
  | neutral
  | consumingNumber (hasConsumedADigit : Bool)
  | consumingTypeSeparator
  | consumingType (typeString : List Char)
deriving DecidableEq, Repr

/-- One transition of the scanner automaton on one character, returning the
next state and the annotations pushed by this transition (the body of the
`for character in sql.chars()` loop of `get_param_types`). -/
def scanStep : ScanState → Char → ScanState × List (List Char)
  | .neutral, c =>
    if c = '$' then (.consumingNumber false, []) else (.neutral, [])
  | .consumingNumber hasDigit, c =>
    if c.isDigit then (.consumingNumber true, [])
    else if c = ':' then (.consumingTypeSeparator, [])
    else (.neutral, if hasDigit then ["unknown".toList] else [])
  | .consumingTypeSeparator, c =>
    if c.isAlpha then (.consumingType [c], [])
    else if c ≠ ':' then (.neutral, ["unknown".toList])
    else (.consumingTypeSeparator, [])
  | .consumingType ts, c =>
    if c.isAlphanum ∨ c = '[' ∨ c = ']' then (.consumingType (ts ++ [c]), [])
    else (.neutral, [ts.map Char.toUpper])

/-- Run the scanner over a character list from a given state, collecting
the pushed annotations in order. -/
def scanRun : ScanState → List Char → ScanState × List (List Char)
  | s, [] => (s, [])
  | s, c :: cs =>
    let step := scanStep s c
    let rest := scanRun step.1 cs
    (rest.1, step.2 ++ rest.2)

/-- End-of-input flush of the scanner (the trailing `match state` of
`get_param_types`). -/
def scanFlush : ScanState → List (List Char)
  | .neutral => []
  | .consumingNumber hasDigit => if hasDigit then ["unknown".toList] else []
  | .consumingTypeSeparator => ["unknown".toList]
  | .consumingType ts => [ts.map Char.toUpper]

/-- The ordered list of raw annotation tokens emitted by the scanner for a
SQL text (the `parameter_types` vector of `get_param_types` before catalog
resolution). -/
def scanParamTypes (sql : List Char) : List (List Char) :=
  let run := scanRun .neutral sql
  run.2 ++ scanFlush run.1

/-- The closed catalog match of `get_param_types`: maps an emitted token
string to its postgres type, `none` for the `panic!` fallthrough arm. -/
def resolveType (s : List Char) : Option PgType :=
  if s = "BOOL".toList then some .bool
  else if s = "BOOL[]".toList then some .boolArray
  else if s = "BYTEA".toList then some .bytea
  else if s = "BYTEA[]".toList then some .byteaArray
  else if s = "CHAR".toList then some .char
  else if s = "CHAR[]".toList then some .charArray
  else if s = "INT8".toList then some .int8
  else if s = "INT8[]".toList then some .int8Array
  else if s = "INT4".toList then some .int4
  else if s = "INT4[]".toList then some .int4Array
  else if s = "INT2".toList then some .int2
  else if s = "INT2[]".toList then some .int2Array
  else if s = "FLOAT8".toList then some .float8
  else if s = "FLOAT8[]".toList then some .float8Array
  else if s = "FLOAT4".toList then some .float4
  else if s = "FLOAT4[]".toList then some .float4Array
  else if s = "UUID".toList then some .uuid
  else if s = "UUID[]".toList then some .uuidArray
  else if s = "TEXT".toList then some .text
  else if s = "VARCHAR".toList then some .varchar
  else if s = "VARCHAR[]".toList then some .varcharArray
  else if s = "TEXT[]".toList then some .textArray
  else if s = "TIMESTAMP".toList then some .timestamp
  else if s = "TIMESTAMP[]".toList then some .timestampArray
  else if s = "TIMESTAMPTZ".toList then some .timestamptz
  else if s = "TIMESTAMPTZ[]".toList then some .timestamptzArray
  else if s = "DATE".toList then some .date
  else if s = "DATE[]".toList then some .dateArray
  else if s = "TIME".toList then some .time
  else if s = "TIME[]".toList then some .timeArray
  else none

/-- Resolve every emitted token through the catalog in order; the first
token outside the catalog aborts with that token (modelling the
`panic!("unsupported type ...")` arm). -/
def resolveAll : List (List Char) → Except (List Char) (List PgType)
  | [] => .ok []
  | t :: ts =>
    match resolveType t with
    | none => .error t
    | some ty =>
      match resolveAll ts with
      | .error e => .error e
      | .ok rest => .ok (ty :: rest)

/-- Embedding of `get_param_types`
(crates/sql-helper-derive/src/query/parameters.rs): scan, then resolve
every token through the closed catalog, aborting on the first token the
catalog does not contain. -/
def getParamTypes (sql : List Char) : Except (List Char) (List PgType) :=
  resolveAll (scanParamTypes sql)

/-- Split a character list into lines at `'\n'` (the line structure used by
the multiline regexes `(?m)^--- (?<name>.+)$`, `(?m)^-- (?<op>opt)
(?<params>.*)$` and `(?m)--.*`); like the regex engine's view, a text with
`n` newline characters has `n + 1` lines. -/
def splitLines : List Char → List (List Char)
  | [] => [[]]
  | c :: cs =>
    if c = '\n' then [] :: splitLines cs
    else
      match splitLines cs with
      | [] => [[c]]
      | l :: ls => (c :: l) :: ls

/-- Rejoin lines with `'\n'`; inverse of `splitLines`. -/
def joinLines : List (List Char) → List Char
  | [] => []
  | [l] => l
  | l :: ls => l ++ '\n' :: joinLines ls

/-- Effect of the comment regex `(?m)--.*` on one line: everything from the
first `--` to the end of the line is removed (`.` does not match `'\n'`,
so the regex acts line by line). -/
def stripLineComment : List Char → List Char
  | [] => []
  | c :: cs => if c = '-' ∧ cs.head? = some '-' then [] else c :: stripLineComment cs

/-- Embedding of `comment_regex.replace_all(&sql, "")` in `Operation::new`:
remove each comment (from `--` to end of line) while keeping the line
structure. -/
def stripComments (sql : List Char) : List Char :=
  joinLines ((splitLines sql).map stripLineComment)

/-- Rust's `str::split_inclusive(';')`: fragments keep the terminating
`';'`; an empty input yields no fragments and a trailing fragment without
the separator is kept. -/
def splitInclusive (sep : Char) : List Char → List (List Char)
  | [] => []
  | c :: cs =>
    if c = sep then [c] :: splitInclusive sep cs
    else
      match splitInclusive sep cs with
      | [] => [[c]]
      | l :: ls => (c :: l) :: ls

/-- Rust's `str::trim`: drop whitespace from both ends. -/
def trim (l : List Char) : List Char :=
  (((l.dropWhile Char.isWhitespace).reverse.dropWhile Char.isWhitespace)).reverse

/-- The statement list computed by `Operation::new`
(crates/sql-helper/src/operation.rs, lines 134-147): strip comments, split
inclusively on `';'`, trim each fragment and drop the empty ones
(`filter_map`). -/
def statementsOf (sql : List Char) : List (List Char) :=
  (splitInclusive ';' (stripComments sql)).filterMap fun statement =>
    let s := trim statement
    if s.isEmpty then none else some s

/-- Statement splitting as worded by the specification: split the
comment-stripped text on `';'` keeping the delimiter, trim surrounding
whitespace from each fragment, and drop empty fragments. -/
def statementsSpec (sql : List Char) : List (List Char) :=
  ((splitInclusive ';' (stripComments sql)).map trim).filter fun s => !s.isEmpty

/-- The one directive currently defined: `Operator::Optional` marks the
parameter at a (0-based) index as optional. -/
inductive Operator where
  | optional (parameterIndex : Nat)
deriving DecidableEq, Repr

/-- Kind payload of `OperatorError` (only `InvalidParams` exists). -/
inductive OperatorErrorKind where
  | invalidParams (expectedText exampleText : String)
deriving DecidableEq, Repr

/-- Error produced by `Operator::try_from`. -/
structure OperatorError where
  opCode : List Char
  params : List Char
  kind : OperatorErrorKind
deriving DecidableEq, Repr

/-- Result of parsing one operator directive; `panics` models the
`unimplemented!` arm for an unrecognized code and the `usize` underflow
abort of `parameter - 1`. -/
inductive OperatorResult where
  | ok (op : Operator)
  | err (e : OperatorError)
  | panics
deriving DecidableEq, Repr

/-- Numeric value of an ASCII digit string (the accumulation loop of
`str::parse::<usize>`). -/
def digitsVal (l : List Char) : Nat :=
  l.foldl (fun a c => 10 * a + (c.toNat - '0'.toNat)) 0

/-- Rust's `str::parse::<usize>` restricted to what can occur here: an
optional leading `'+'` followed by a nonempty ASCII digit string (the
`usize` overflow bound is not modelled; the claims only involve small
numbers). -/
def parseUsize? (l : List Char) : Option Nat :=
  let l' := if l.head? = some '+' then l.tail else l
  if l' ≠ [] ∧ l'.all Char.isDigit then some (digitsVal l') else none

/-- Embedding of `Operator::try_from`
(crates/sql-helper/src/operation.rs, lines 23-58).  `params.get(1..)` drops
the leading `'$'`; `parameter - 1` is `usize` subtraction, which aborts
when the parsed number is `0`; a code other than `opt` hits the
`unimplemented!` arm. -/
def operatorTryFrom (opCode params : List Char) : OperatorResult :=
  let oc := trim opCode
  let ps := trim params
  if oc = "opt".toList then
    match ps with
    | [] => .err ⟨oc, ps, .invalidParams "a SQL parameter" "$3"⟩
    | _ :: tail =>
      match parseUsize? tail with
      | none => .err ⟨oc, ps, .invalidParams "a SQL parameter" "$3"⟩
      | some n => if n = 0 then .panics else .ok (.optional (n - 1))
  else .panics

/-- A line's capture under the operator regex
`(?m)^-- (?<op>opt) (?<params>.*)$`: the `op` group only ever matches the
literal `opt`, so a line yields a capture exactly when it starts with
`-- opt `, and the params group is the rest of the line. -/
def operatorLineParams? (line : List Char) : Option (List Char) :=
  match line with
  | '-' :: '-' :: ' ' :: 'o' :: 'p' :: 't' :: ' ' :: params => some params
  | _ => none

/-- Result of extracting all operators of an operation body. -/
inductive OperatorsResult where
  | ok (ops : List Operator)
  | err (e : OperatorError)
  | panics
deriving DecidableEq, Repr

/-- Sequentially collect per-directive results, stopping at the first
error or panic (`collect::<Result<_, _>>()` over a lazily mapped
iterator). -/
def collectOperators : List OperatorResult → OperatorsResult
  | [] => .ok []
  | .panics :: _ => .panics
  | .err e :: _ => .err e
  | .ok op :: rest =>
    match collectOperators rest with
    | .ok ops => .ok (op :: ops)
    | .err e => .err e
    | .panics => .panics

/-- Embedding of the operator extraction in `Operation::new`
(lines 121-131): every line captured by the operator regex is fed through
`Operator::try_from` (the captured code is always `opt`). -/
def extractOperators (sql : List Char) : OperatorsResult :=
  collectOperators
    (((splitLines sql).filterMap operatorLineParams?).map
      (operatorTryFrom "opt".toList))

/-- The database as seen by `Operation::new`: `prepare` reports a
statement's parameter-type list or fails; `execute` optionally fails. -/
structure DbClient where
  prepare : List Char → Except PgError (List PgType)
  execute : List Char → Option PgError

/-- Error kinds of `ParseOperationGroupError`
(crates/sql-helper/src/operation_group.rs, lines 73-108); `expected` and
`real` of `mismatchedParams` are the rendered type names, as in the
sources. -/
inductive ParseOperationGroupErrorKind where
  | headerBodyMismatch (headerCount bodyCount : Nat)
  | noHeaders
  | noStatements
  | invalidSql (statementIndex : Nat) (source : PgError)
  | mismatchedParams (statementIndex paramIndex : Nat) (expected real : String)
  | unsupportedParameter (statementIndex paramIndex : Nat) (paramType : String)
  | operatorError (source : OperatorError)
deriving DecidableEq, Repr

/-- Error type of operation-group parsing; `operation` names the enclosing
operation when there is one. -/
structure ParseOperationGroupError where
  operation : Option (List Char)
  kind : ParseOperationGroupErrorKind
deriving DecidableEq, Repr

/-- Per-parameter check of one statement inside `Operation::new`'s loop:
first failing index, in ascending order, where for each index the mismatch
test (`param != expected`) precedes the `data_for_type` support test. -/
inductive ParamCheck where
  | ok
  | mismatch (paramIndex : Nat) (expected real : PgType)
  | unsupported (paramIndex : Nat) (t : PgType)
deriving DecidableEq, Repr

/-- Walk the rows of the parameter loop: `expected` is the (already
extended) running vector, `params` the statement's own list, `i` the
current index. -/
def checkParams : List PgType → List PgType → Nat → ParamCheck
  | e :: es, p :: ps, i =>
    if p ≠ e then .mismatch i e p
    else if (dataForType p).isNone then .unsupported i p
    else checkParams es ps (i + 1)
  | _, _, _ => .ok

/-- The running-vector extension
`operation_params.extend_from_slice(&params[operation_params.len()..])`. -/
def extendParams (acc ps : List PgType) : List PgType :=
  acc ++ ps.drop acc.length

/-- Result of the statement loop of `Operation::new`: the final parameter
vector, an error, or a Rust abort (the slice `&params[len..]` with
`len > params.len()`). -/
inductive LoopResult where
  | ok (params : List PgType)
  | err (e : ParseOperationGroupError)
  | panics
deriving DecidableEq, Repr

/-- Embedding of the statement loop of `Operation::new`
(crates/sql-helper/src/operation.rs, lines 156-221): prepare, extend the
running parameter vector, check each parameter (mismatch, then
`data_for_type` support), then execute, tolerating exactly the
foreign-key-violation and check-violation codes. -/
def newLoop (client : DbClient) (name : List Char) :
    List (List Char) → Nat → List PgType → LoopResult
  | [], _, acc => .ok acc
  | st :: rest, idx, acc =>
    match client.prepare st with
    | .error e => .err ⟨some name, .invalidSql idx e⟩
    | .ok params =>
      if params.length < acc.length then .panics
      else
        let acc' := extendParams acc params
        match checkParams acc' params 0 with
        | .mismatch i e r =>
          .err ⟨some name, .mismatchedParams idx i (pgTypeName e) (pgTypeName r)⟩
        | .unsupported i t =>
          .err ⟨some name, .unsupportedParameter idx i (pgTypeName t)⟩
        | .ok =>
          match client.execute st with
          | none => newLoop client name rest (idx + 1) acc'
          | some e =>
            if e.code = some .foreignKeyViolation ∨ e.code = some .checkViolation then
              newLoop client name rest (idx + 1) acc'
            else .err ⟨some name, .invalidSql idx e⟩

/-- A constructed operation descriptor
(crates/sql-helper/src/operation.rs, `struct Operation`). -/
structure Operation where
  name : List Char
  statements : List (List Char)
  params : List PgType
  operators : List Operator
deriving DecidableEq, Repr

/-- Result of `Operation::new`. -/
inductive OperationResult where
  | ok (op : Operation)
  | err (e : ParseOperationGroupError)
  | panics
deriving DecidableEq, Repr

/-- Embedding of `Operation::new`
(crates/sql-helper/src/operation.rs, lines 116-229): extract operators,
split statements, fail with `NoStatements` on an empty list, then run the
prepare/check/execute loop against the database. -/
def operationNew (name sql : List Char) (client : DbClient) : OperationResult :=
  match extractOperators sql with
  | .panics => .panics
  | .err e => .err ⟨some name, .operatorError e⟩
  | .ok ops =>
    let statements := statementsOf sql
    if statements.isEmpty then .err ⟨some name, .noStatements⟩
    else
      match newLoop client name statements 0 [] with
      | .ok params => .ok ⟨name, statements, params, ops⟩
      | .err e => .err e
      | .panics => .panics

/-- A line's capture under the header regex `(?m)^--- (?<name>.+)$`: the
title is everything after `--- `, and must be nonempty. -/
def headerTitle? (line : List Char) : Option (List Char) :=
  match line with
  | '-' :: '-' :: '-' :: ' ' :: t => if t.isEmpty then none else some t
  | _ => none

/-- Whether a line is an operation header. -/
def isHeader (line : List Char) : Bool :=
  (headerTitle? line).isSome

/-- The fragments of `header_regex.split(&source)` in the line model: for
`n` header lines there are `n + 1` fragments, the first being the text
before the first header. -/
def splitAtHeaders : List (List Char) → List (List (List Char))
  | [] => [[]]
  | l :: ls =>
    match splitAtHeaders ls with
    | [] => [[]]
    | b :: bs => if isHeader l then [] :: b :: bs else (l :: b) :: bs

/-- Embedding of the splitting phase of `OperationGroup::parse`
(crates/sql-helper/src/operation_group.rs, lines 16-44): collect header
captures, split the document at headers, drop the fragment before the
first header, fail with `NoHeaders` when there are no headers and with
`HeaderBodyMismatch` when the counts disagree, otherwise pair each title
with its body fragment in order. -/
def splitDocument (lines : List (List Char)) :
    Except ParseOperationGroupError (List (List Char × List (List Char))) :=
  let titles := lines.filterMap headerTitle?
  let bodies := (splitAtHeaders lines).drop 1
  if titles.isEmpty then .error ⟨none, .noHeaders⟩
  else if titles.length ≠ bodies.length then
    .error ⟨none, .headerBodyMismatch titles.length bodies.length⟩
  else .ok (titles.zip bodies)

/-- Result of parsing a whole operation group. -/
inductive GroupResult where
  | ok (ops : List Operation)
  | err (e : ParseOperationGroupError)
  | panics
deriving DecidableEq, Repr

/-- The construction loop of `OperationGroup::parse` (lines 41-49): build
each operation from its trimmed body, propagating the first failure
(`Operation::new(...)?`) out of the whole parse. -/
def parseOperations (ident : List Char → List Char) (client : DbClient) :
    List (List Char × List (List Char)) → GroupResult
  | [] => .ok []
  | (title, body) :: rest =>
    match operationNew (ident title) (trim (joinLines body)) client with
    | .panics => .panics
    | .err e => .err e
    | .ok op =>
      match parseOperations ident client rest with
      | .ok ops => .ok (op :: ops)
      | .err e => .err e
      | .panics => .panics

/-- Embedding of `OperationGroup::parse`
(crates/sql-helper/src/operation_group.rs, lines 16-52), over the line
model of the document.  The external collaborator `to_valid_ident` (crate
`cli_helper`, not part of this repository) is passed in as `ident`. -/
def parseGroup (ident : List Char → List Char) (client : DbClient)
    (lines : List (List Char)) : GroupResult :=
  match splitDocument lines with
  | .error e => .err e
  | .ok pairs => parseOperations ident client pairs

/-- A database client whose statements all prepare with no parameters and
execute successfully; used to instantiate theorems at concrete inputs. -/
def trivialClient : DbClient :=
  ⟨fun _ => .ok [], fun _ => none⟩

/-- Decidable equality for `Except`, used to evaluate the embedding at
concrete inputs. -/
instance {ε α : Type} [DecidableEq ε] [DecidableEq α] : DecidableEq (Except ε α) :=
  fun x y =>
    match x, y with
    | .ok a, .ok b =>
      match decEq a b with
      | isTrue h => isTrue (h ▸ rfl)
      | isFalse h => isFalse (fun hx => h (Except.ok.inj hx))
    | .error a, .error b =>
      match decEq a b with
      | isTrue h => isTrue (h ▸ rfl)
      | isFalse h => isFalse (fun hx => h (Except.error.inj hx))
    | .ok _, .error _ => isFalse (fun hx => Except.noConfusion hx)
    | .error _, .ok _ => isFalse (fun hx => Except.noConfusion hx)

/-- First disagreement at a shared position, phrased from the
specification: compare a statement's parameter list with the running
vector position by position over the positions both possess, returning
the first index where they differ together with the established
(`expected`) and the statement's (`real`) type. -/
def findDisagree : List PgType → List PgType → Nat → Option (Nat × PgType × PgType)
  | e :: es, p :: ps, i => if p ≠ e then some (i, e, p) else findDisagree es ps (i + 1)
  | _, _, _ => none

/-- Modelled from the spec: the reconciliation rule of the Operation
Builder.  The first statement establishes the running parameter-type
vector; each subsequent statement is checked against the vector at every
position already seen and appends its new positions; the first
disagreement is reported as (statement index, parameter index, expected
type, real type). -/
def firstDisagreement : List PgType → Nat → List (List PgType) → Option (Nat × Nat × PgType × PgType)
  | _, _, [] => none
  | acc, si, ps :: rest =>
    match findDisagree acc ps 0 with
    | some (pi, e, r) => some (si, pi, e, r)
    | none => firstDisagreement (extendParams acc ps) (si + 1) rest

/-- The running parameter-type vector accumulated over the statements'
database-reported parameter lists. -/
def runningVec (stmts : List (List PgType)) : List PgType :=
  stmts.foldl extendParams []

/-- The lists of parameter positions only ever extend: starting from a
vector of length `n`, each statement's list is at least as long as the
running vector it is checked against ("new positions are appended"). -/
def lengthsExtend : Nat → List (List PgType) → Prop
  | _, [] => True
  | n, ps :: rest => n ≤ ps.length ∧ lengthsExtend ps.length rest

instance instDecLengthsExtend :
    ∀ (n : Nat) (stmts : List (List PgType)), Decidable (lengthsExtend n stmts)
  | _, [] => .isTrue trivial
  | n, ps :: rest =>
    have : Decidable (lengthsExtend ps.length rest) := instDecLengthsExtend ps.length rest
    inferInstanceAs (Decidable (n ≤ ps.length ∧ lengthsExtend ps.length rest))

/-- Modelled from the spec: each header paired with the lines that follow
it up to the next header line (or the end of the document); the text
before the first header appears in no pair. -/
def headersWithSegments : List (List Char) → List (List Char × List (List Char))
  | [] => []
  | l :: ls =>
    match headerTitle? l with
    | some t => (t, ls.takeWhile fun x => !isHeader x) :: headersWithSegments ls
    | none => headersWithSegments ls

/-- Modelled from the spec: the directive code of a comment line of the
form `-- <code> <args>` (the word after the comment marker). -/
def directiveCode? (line : List Char) : Option (List Char) :=
  match line with
  | '-' :: '-' :: ' ' :: rest => some (rest.takeWhile fun c => c ≠ ' ')
  | _ => none

/-- Whether a character list contains two adjacent dashes (the comment
marker); statements handed to the database must never contain one. -/
def hasDoubleDash : List Char → Bool
  | [] => false
  | c :: cs => if c = '-' ∧ cs.head? = some '-' then true else hasDoubleDash cs

/-- The parameter-type names the old validator can synthesize data for
(src/src/operation.rs, lines 76-114: the match on `param.name()`). -/
def oldDataSupported (name : String) : Bool :=
  name = "bool" ∨ name = "bytea" ∨ name = "char" ∨ name = "int8" ∨
  name = "int4" ∨ name = "int2" ∨ name = "float8" ∨ name = "float4" ∨
  name = "text" ∨ name = "varchar" ∨ name = "timestamp" ∨
  name = "timestamptz" ∨ name = "uuid"

/-- The step loop of `Operation::is_valid` (src/src/operation.rs, lines
32-145): a prepare failure marks the operation invalid and moves on; a
statement with no parameters executes directly (any failure marks it
invalid); a statement with an unsupported parameter type is skipped with a
warning; otherwise an execution failure is tolerated exactly for the
foreign-key and check violation codes. -/
def isValidSteps (client : DbClient) : List (List Char) → Bool → Bool
  | [], v => v
  | st :: rest, v =>
    match client.prepare st with
    | .error _ => isValidSteps client rest false
    | .ok params =>
      if params.isEmpty then
        match client.execute st with
        | some _ => isValidSteps client rest false
        | none => isValidSteps client rest v
      else if params.all fun p => oldDataSupported (pgTypeName p) then
        match client.execute st with
        | some e =>
          if e.code = some .foreignKeyViolation ∨ e.code = some .checkViolation then
            isValidSteps client rest v
          else isValidSteps client rest false
        | none => isValidSteps client rest v
      else isValidSteps client rest v

/-- Embedding of `Operation::is_valid` (src/src/operation.rs): whether
every step of the operation passes validation. -/
def isValid (client : DbClient) (steps : List (List Char)) : Bool :=
  isValidSteps client steps true

/-- An operation of the old pipeline: a name and its steps. -/
abbrev OldOperation := List Char × List (List Char)

/-- Embedding of the test loop of `run_tests` (src/src/cli.rs, lines
106-120): fold over every module and every operation, validating each one
and accumulating `all_valid &= operation.is_valid(...)`; the first
component records each operation's reported outcome in order, the second
is the running conjunction. -/
def runTests (client : DbClient) (modules : List (List OldOperation)) :
    List Bool × Bool :=
  modules.foldl
    (fun acc m =>
      m.foldl
        (fun acc2 op =>
          let v := isValid client op.2
          (acc2.1 ++ [v], acc2.2 && v))
        acc)
    ([], true)

theorem scanRun_cons (s : ScanState) (c : Char) (cs : List Char) :
    scanRun s (c :: cs) =
      ((scanRun (scanStep s c).1 cs).1, (scanStep s c).2 ++ (scanRun (scanStep s c).1 cs).2) :=
  rfl

theorem scanRun_digits (ds : List Char) (hd : ∀ c ∈ ds, c.isDigit = true) :
    ∀ (rest : List Char) (b : Bool),
      scanRun (.consumingNumber b) (ds ++ rest) =
        scanRun (.consumingNumber (b || !ds.isEmpty)) rest := by
  induction ds with
  | nil => intro rest b; simp
  | cons d ds ih =>
    intro rest b
    have hdd : d.isDigit = true := hd d (List.mem_cons_self d ds)
    have ih' := ih (fun c hc => hd c (List.mem_cons_of_mem d hc)) rest true
    have step : scanStep (.consumingNumber b) d = (.consumingNumber true, []) := by
      simp [scanStep, hdd]
    calc scanRun (.consumingNumber b) ((d :: ds) ++ rest)
        = scanRun (.consumingNumber true) (ds ++ rest) := by
          rw [List.cons_append, scanRun_cons, step]; simp
      _ = scanRun (.consumingNumber (true || !ds.isEmpty)) rest := ih'
      _ = scanRun (.consumingNumber (b || !(d :: ds).isEmpty)) rest := by simp

theorem scanRun_typeChars (cs : List Char)
    (h : ∀ c ∈ cs, (c.isAlphanum = true ∨ c = '[' ∨ c = ']')) :
    ∀ (rest acc : List Char),
      scanRun (.consumingType acc) (cs ++ rest) =
        scanRun (.consumingType (acc ++ cs)) rest := by
  induction cs with
  | nil => intro rest acc; simp
  | cons c cs ih =>
    intro rest acc
    have hc : c.isAlphanum = true ∨ c = '[' ∨ c = ']' := h c (List.mem_cons_self c cs)
    have ih' := ih (fun x hx => h x (List.mem_cons_of_mem c hx)) rest (acc ++ [c])
    have step : scanStep (.consumingType acc) c = (.consumingType (acc ++ [c]), []) := by
      simp [scanStep, hc]
    calc scanRun (.consumingType acc) ((c :: cs) ++ rest)
        = scanRun (.consumingType (acc ++ [c])) (cs ++ rest) := by
          rw [List.cons_append, scanRun_cons, step]; simp
      _ = scanRun (.consumingType (acc ++ [c] ++ cs)) rest := ih'
      _ = scanRun (.consumingType (acc ++ c :: cs)) rest := by simp

/-- C2. For every annotation of the form `$N::TYPE` with `N` a nonempty
ASCII digit string and `TYPE` a (case-insensitive) token of the closed
catalog, the scanner automaton of `get_param_types` emits exactly one
annotation: `TYPE` uppercased; with a single `:` separator instead of the
doubled `::` cast syntax the emitted annotation is the same; and catalog
resolution turns the whole input into exactly the one resolved type. -/
theorem c2_annotation_scanner (n ts : List Char) (t0 : Char) (T : PgType)
    (hn : n ≠ []) (hdig : ∀ c ∈ n, c.isDigit = true)
    (ht0 : t0.isAlpha = true)
    (hts : ∀ c ∈ ts, (c.isAlphanum = true ∨ c = '[' ∨ c = ']'))
    (hres : resolveType ((t0 :: ts).map Char.toUpper) = some T) :
    scanParamTypes ('$' :: (n ++ ':' :: ':' :: t0 :: ts)) = [(t0 :: ts).map Char.toUpper]
    ∧ scanParamTypes ('$' :: (n ++ ':' :: t0 :: ts)) = [(t0 :: ts).map Char.toUpper]
    ∧ getParamTypes ('$' :: (n ++ ':' :: ':' :: t0 :: ts)) = .ok [T] := by
  have hstart : ∀ l : List Char, scanRun .neutral ('$' :: l) =
      scanRun (.consumingNumber false) l := by
    intro l; rw [scanRun_cons]; simp [scanStep]
  have hcolon : ∀ l : List Char, scanRun (.consumingNumber true) (':' :: l) =
      scanRun .consumingTypeSeparator l := by
    intro l; rw [scanRun_cons]; simp [scanStep]
  have hcolon2 : ∀ l : List Char, scanRun .consumingTypeSeparator (':' :: l) =
      scanRun .consumingTypeSeparator l := by
    intro l; rw [scanRun_cons]; simp [scanStep]
  have htype : scanRun .consumingTypeSeparator (t0 :: ts) =
      (.consumingType (t0 :: ts), []) := by
    have step : scanStep .consumingTypeSeparator t0 = (.consumingType [t0], []) := by
      simp [scanStep, ht0]
    have h2 := scanRun_typeChars ts hts [] [t0]
    rw [scanRun_cons, step]
    simp only [List.append_nil] at h2
    simp [h2, scanRun]
  have hNonempty : (!n.isEmpty) = true := by
    cases n with
    | nil => exact absurd rfl hn
    | cons a l => simp
  have hdouble : scanRun .neutral ('$' :: (n ++ ':' :: ':' :: t0 :: ts)) =
      (.consumingType (t0 :: ts), []) := by
    rw [hstart, scanRun_digits n hdig (':' :: ':' :: t0 :: ts) false]
    simp only [hNonempty, Bool.false_or]
    rw [hcolon, hcolon2, htype]
  have hsingle : scanRun .neutral ('$' :: (n ++ ':' :: t0 :: ts)) =
      (.consumingType (t0 :: ts), []) := by
    rw [hstart, scanRun_digits n hdig (':' :: t0 :: ts) false]
    simp only [hNonempty, Bool.false_or]
    rw [hcolon, htype]
  have hres' : resolveType (t0.toUpper :: ts.map Char.toUpper) = some T := by
    simpa using hres
  refine ⟨?_, ?_, ?_⟩
  · simp [scanParamTypes, hdouble, scanFlush]
  · simp [scanParamTypes, hsingle, scanFlush]
  · simp [getParamTypes, scanParamTypes, hdouble, scanFlush, resolveAll, hres']

/-- C2 witness: the concrete annotation `$1::int4` scans (under both
separator spellings) to the single token `INT4` and resolves to the
postgres type `int4`. -/
theorem c2_annotation_scanner_witness :
    scanParamTypes ("$1::int4".toList) = ["INT4".toList]
    ∧ scanParamTypes ("$1:int4".toList) = ["INT4".toList]
    ∧ getParamTypes ("$1::int4".toList) = .ok [PgType.int4] :=
  c2_annotation_scanner ['1'] ['n', 't', '4'] 'i' PgType.int4
    (by decide) (by decide) (by decide) (by decide) (by decide)

/-- C3. Code bug witness: in `get_param_types` a bare `$N` placeholder
(no annotation) makes the scanner push the sentinel token `unknown`, but
the catalog match of the very same function has no arm for that sentinel,
so the function aborts with `unsupported type unknown` instead of
yielding the Unknown sentinel; an annotation token outside the closed
catalog is (as the claim states) a hard parse failure naming the token. -/
theorem c3_unknown_sentinel_eval :
    getParamTypes ("SELECT $1 ".toList) = .error ("unknown".toList)
    ∧ getParamTypes ("SELECT $1::FOO2".toList) = .error ("FOO2".toList)
    ∧ scanParamTypes ("SELECT $1 ".toList) = ["unknown".toList] :=
  ⟨rfl, rfl, by decide⟩

theorem dropWhile_eq_self_of {p : Char → Bool} :
    ∀ l : List Char, (∀ c ∈ l, p c = false) → l.dropWhile p = l := by
  intro l h
  cases l with
  | nil => rfl
  | cons c cs =>
    have := h c (List.mem_cons_self c cs)
    simp [List.dropWhile_cons, this]

theorem trim_of_nonWhite (l : List Char) (h : ∀ c ∈ l, c.isWhitespace = false) :
    trim l = l := by
  unfold trim
  rw [dropWhile_eq_self_of l h]
  rw [dropWhile_eq_self_of l.reverse (fun c hc => h c (List.mem_reverse.mp hc))]
  exact List.reverse_reverse l

theorem digit_not_white (c : Char) (h : c.isDigit = true) : c.isWhitespace = false := by
  cases hw : c.isWhitespace
  · rfl
  · exfalso
    have hw' := hw
    simp [Char.isWhitespace] at hw'
    rcases hw' with ((rfl | rfl) | rfl) | rfl <;> exact absurd h (by decide)

theorem digit_ne (c : Char) (h : c.isDigit = true) : c ≠ '+' ∧ c ≠ '\n' := by
  constructor
  · intro e; subst e; exact absurd h (by decide)
  · intro e; subst e; exact absurd h (by decide)

theorem parseUsize_digits (ds : List Char) (hne : ds ≠ [])
    (hd : ∀ c ∈ ds, c.isDigit = true) : parseUsize? ds = some (digitsVal ds) := by
  cases ds with
  | nil => exact absurd rfl hne
  | cons d tl =>
    have hdne : d ≠ '+' := (digit_ne d (hd d (List.mem_cons_self d tl))).1
    simp only [parseUsize?, List.head?, Option.some.injEq, hdne, if_false]
    simp [hdne]
    exact ⟨hd d (List.mem_cons_self d tl), fun x hx => hd x (List.mem_cons_of_mem d hx)⟩

theorem operatorTryFrom_opt_digits (ds : List Char) (hne : ds ≠ [])
    (hd : ∀ c ∈ ds, c.isDigit = true) :
    operatorTryFrom ("opt".toList) ('$' :: ds) =
      if digitsVal ds = 0 then .panics else .ok (.optional (digitsVal ds - 1)) := by
  have htrimOpt : trim ['o', 'p', 't'] = ['o', 'p', 't'] := by decide
  have hnw : ∀ c ∈ '$' :: ds, c.isWhitespace = false := by
    intro c hc
    rcases List.mem_cons.mp hc with rfl | hc'
    · decide
    · exact digit_not_white c (hd c hc')
  have htrimPs : trim ('$' :: ds) = '$' :: ds := trim_of_nonWhite _ hnw
  simp [operatorTryFrom, htrimOpt, htrimPs, parseUsize_digits ds hne hd]

theorem splitLines_no_newline (l : List Char) (h : ∀ c ∈ l, c ≠ '\n') :
    splitLines l = [l] := by
  induction l with
  | nil => rfl
  | cons c cs ih =>
    have hc : c ≠ '\n' := h c (List.mem_cons_self c cs)
    have := ih (fun x hx => h x (List.mem_cons_of_mem c hx))
    simp [splitLines, hc, this]

/-- C10. The operator parser is total only for `N ≥ 1`: the directive
line `-- opt $0` drives `Operator::try_from` into the `usize`
subtraction `0 - 1`, which aborts (an integer-underflow panic) instead of
returning an `OperatorError`, while for every digit string of value at
least 1 the parser returns the marker with 0-based index `N - 1`. -/
theorem c10_opt_zero_underflow :
    extractOperators ("-- opt $0".toList) = .panics
    ∧ (∀ ds : List Char, ds ≠ [] → (∀ c ∈ ds, c.isDigit = true) →
        1 ≤ digitsVal ds →
        operatorTryFrom ("opt".toList) ('$' :: ds) =
          .ok (.optional (digitsVal ds - 1))) := by
  constructor
  · decide
  · intro ds hne hd hval
    rw [operatorTryFrom_opt_digits ds hne hd]
    rw [if_neg (by omega)]

/-- C10 witness: `-- opt $3` parses to the marker with stored index 2. -/
theorem c10_opt_zero_underflow_witness :
    operatorTryFrom ("opt".toList) ('$' :: "3".toList) =
      .ok (.optional (digitsVal "3".toList - 1)) :=
  c10_opt_zero_underflow.2 "3".toList (by decide) (by decide) (by decide)

theorem stripLineComment_cons (c : Char) (cs : List Char) :
    stripLineComment (c :: cs) =
      if c = '-' ∧ cs.head? = some '-' then [] else c :: stripLineComment cs :=
  rfl

theorem hdd_cons (c : Char) (cs : List Char) :
    hasDoubleDash (c :: cs) =
      if c = '-' ∧ cs.head? = some '-' then true else hasDoubleDash cs :=
  rfl

theorem stripLine_head (l : List Char) (h : (stripLineComment l).head? = some '-') :
    l.head? = some '-' := by
  cases l with
  | nil => simp [stripLineComment] at h
  | cons c cs =>
    by_cases hc : c = '-' ∧ cs.head? = some '-'
    · rw [List.head?_cons, hc.1]
    · rw [stripLineComment_cons, if_neg hc, List.head?_cons, Option.some.injEq] at h
      rw [List.head?_cons, h]

theorem hdd_stripLine (l : List Char) :
    hasDoubleDash (stripLineComment l) = false := by
  induction l with
  | nil => rfl
  | cons c cs ih =>
    by_cases hc : c = '-' ∧ cs.head? = some '-'
    · rw [stripLineComment_cons, if_pos hc]; rfl
    · have hcond : ¬(c = '-' ∧ (stripLineComment cs).head? = some '-') :=
        fun hx => hc ⟨hx.1, stripLine_head cs hx.2⟩
      rw [stripLineComment_cons, if_neg hc, hdd_cons, if_neg hcond]
      exact ih

theorem hdd_append_newline (l r : List Char) :
    hasDoubleDash (l ++ '\n' :: r) = (hasDoubleDash l || hasDoubleDash r) := by
  have hnl : ¬(('\n' : Char) = '-') := by decide
  induction l with
  | nil =>
    rw [List.nil_append, hdd_cons, if_neg (fun hx => hnl hx.1)]
    simp [hasDoubleDash]
  | cons c cs ih =>
    rw [List.cons_append, hdd_cons, hdd_cons, ih]
    by_cases hh : cs.head? = some '-'
    · have hl : (cs ++ '\n' :: r).head? = some '-' := by
        cases cs with
        | nil => exact absurd hh (by simp)
        | cons d ds => simpa [List.head?] using hh
      by_cases hcc : c = '-'
      · rw [if_pos ⟨hcc, hl⟩, if_pos ⟨hcc, hh⟩]; simp
      · rw [if_neg (fun hx => hcc hx.1), if_neg (fun hx => hcc hx.1)]
    · have hl : ¬((cs ++ '\n' :: r).head? = some '-') := by
        cases cs with
        | nil => simp [List.head?, hnl]
        | cons d ds => simpa [List.head?] using hh
      rw [if_neg (fun hx => hl hx.2), if_neg (fun hx => hh hx.2)]

theorem hdd_append_right (l y : List Char) (h : hasDoubleDash l = true) :
    hasDoubleDash (l ++ y) = true := by
  induction l with
  | nil => exact absurd h (by simp [hasDoubleDash])
  | cons c cs ih =>
    rw [List.cons_append, hdd_cons]
    by_cases hc : c = '-' ∧ cs.head? = some '-'
    · have hl : (cs ++ y).head? = some '-' := by
        cases cs with
        | nil => exact absurd hc.2 (by simp)
        | cons d ds => simpa [List.head?] using hc.2
      rw [if_pos ⟨hc.1, hl⟩]
    · rw [hdd_cons, if_neg hc] at h
      rw [ih h]
      split <;> rfl

theorem hdd_append_left (x y : List Char) (h : hasDoubleDash y = true) :
    hasDoubleDash (x ++ y) = true := by
  induction x with
  | nil => simpa using h
  | cons c cs ih =>
    rw [List.cons_append, hdd_cons, ih]
    split <;> rfl

theorem hdd_join (ls : List (List Char)) (h : ∀ l ∈ ls, hasDoubleDash l = false) :
    hasDoubleDash (joinLines ls) = false := by
  induction ls with
  | nil => rfl
  | cons l rest ih =>
    cases rest with
    | nil => exact h l (List.mem_cons_self l [])
    | cons l2 rest2 =>
      have heq : joinLines (l :: l2 :: rest2) = l ++ '\n' :: joinLines (l2 :: rest2) := rfl
      rw [heq, hdd_append_newline, h l (List.mem_cons_self l _),
        ih (fun x hx => h x (List.mem_cons_of_mem l hx))]
      rfl

theorem splitInclusive_ne_nil (sep c : Char) (cs : List Char) :
    splitInclusive sep (c :: cs) ≠ [] := by
  by_cases hc : c = sep
  · simp [splitInclusive, hc]
  · rw [splitInclusive, if_neg hc]
    cases splitInclusive sep cs <;> simp

theorem splitInclusive_join (sep : Char) (l : List Char) :
    (splitInclusive sep l).flatten = l := by
  induction l with
  | nil => rfl
  | cons c cs ih =>
    by_cases hc : c = sep
    · rw [splitInclusive, if_pos hc]
      simp [List.flatten_cons, ih]
    · rw [splitInclusive, if_neg hc]
      cases hsp : splitInclusive sep cs with
      | nil =>
        rw [hsp] at ih
        simp only [List.flatten_nil] at ih
        simp [List.flatten_cons, ← ih]
      | cons f fs =>
        rw [hsp] at ih
        simp only [List.flatten_cons] at ih ⊢
        simp only [List.cons_append]
        rw [ih]

theorem mem_flatten_decomp (x : List Char) (L : List (List Char)) (h : x ∈ L) :
    ∃ a b, L.flatten = a ++ (x ++ b) := by
  induction L with
  | nil => exact absurd h (List.not_mem_nil x)
  | cons l ls ih =>
    rcases List.mem_cons.mp h with rfl | h'
    · exact ⟨[], ls.flatten, by simp [List.flatten_cons]⟩
    · obtain ⟨a, b, hab⟩ := ih h'
      exact ⟨l ++ a, b, by simp [List.flatten_cons, hab, List.append_assoc]⟩

theorem dropWhile_decomp (p : Char → Bool) (l : List Char) :
    ∃ a, l = a ++ l.dropWhile p := by
  induction l with
  | nil => exact ⟨[], rfl⟩
  | cons c cs ih =>
    by_cases hc : p c
    · obtain ⟨a, ha⟩ := ih
      exact ⟨c :: a, by rw [List.dropWhile_cons, if_pos hc]; simpa using ha⟩
    · exact ⟨[], by rw [List.dropWhile_cons, if_neg hc]; simp⟩

theorem trim_decomp (l : List Char) : ∃ a b, l = a ++ (trim l ++ b) := by
  obtain ⟨a, ha⟩ := dropWhile_decomp Char.isWhitespace l
  obtain ⟨a2, ha2⟩ := dropWhile_decomp Char.isWhitespace (l.dropWhile Char.isWhitespace).reverse
  have hd : l.dropWhile Char.isWhitespace = trim l ++ a2.reverse := by
    have := congrArg List.reverse ha2
    rw [List.reverse_reverse, List.reverse_append] at this
    exact this
  exact ⟨a, a2.reverse, by conv_lhs => rw [ha, hd]⟩

theorem statements_no_dd (sql st : List Char) (h : st ∈ statementsOf sql) :
    hasDoubleDash st = false := by
  have htxt : hasDoubleDash (stripComments sql) = false := by
    unfold stripComments
    refine hdd_join _ ?_
    intro l hl
    obtain ⟨x, _, rfl⟩ := List.mem_map.mp hl
    exact hdd_stripLine x
  obtain ⟨frag, hfrag, hsome⟩ := List.mem_filterMap.mp h
  have hst : st = trim frag := by
    by_cases he : (trim frag).isEmpty
    · simp [he] at hsome
    · simp [he] at hsome
      exact hsome.symm
  obtain ⟨a, b, hab⟩ := mem_flatten_decomp frag _ hfrag
  rw [splitInclusive_join] at hab
  obtain ⟨a2, b2, hfragdec⟩ := trim_decomp frag
  by_contra hdd
  have hdd' : hasDoubleDash st = true := by
    cases hx : hasDoubleDash st
    · exact absurd hx hdd
    · rfl
  have h1 : hasDoubleDash (stripComments sql) = true := by
    rw [hab, hfragdec, ← hst]
    have h2 : hasDoubleDash (st ++ b2) = true := hdd_append_right st b2 hdd'
    have h3 : hasDoubleDash (a2 ++ (st ++ b2)) = true := hdd_append_left _ _ h2
    have h4 : hasDoubleDash ((a2 ++ (st ++ b2)) ++ b) = true := hdd_append_right _ _ h3
    have h5 : hasDoubleDash (a ++ ((a2 ++ (st ++ b2)) ++ b)) = true := hdd_append_left _ _ h4
    simpa [List.append_assoc] using h5
  rw [htxt] at h1
  exact Bool.false_ne_true h1

/-- C7 counterexample: a comment line whose directive code is `nop`,
not `opt`, never matches the operator pattern, so operation construction
neither fails (as the claim requires for unrecognized directive codes)
nor records an operator: the body parses successfully with no markers and
the directive line is stripped with the comments. -/
theorem c7_counterexample :
    directiveCode? ("-- nop $1".toList) = some ("nop".toList)
    ∧ "nop".toList ≠ "opt".toList
    ∧ extractOperators ("-- nop $1\nSELECT 1;".toList) = .ok []
    ∧ operationNew ("x".toList) ("-- nop $1\nSELECT 1;".toList) trivialClient =
        .ok ⟨"x".toList, ["SELECT 1;".toList], [], []⟩ :=
  ⟨by decide, by decide, by decide, by decide⟩

/-- C7 (amended). A directive line `-- opt $N` with `N ≥ 1` contributes
exactly one optional-parameter marker with stored index `N - 1`; a line
that does not match the operator pattern `-- opt ` (in particular any
comment line with a different directive code) contributes nothing and
raises no error; and comment removal before statement splitting
guarantees that no statement handed to the database contains the comment
marker `--`, so no directive text reaches the database. -/
theorem c7_amended_directive_lines :
    (∀ ds : List Char, ds ≠ [] → (∀ c ∈ ds, c.isDigit = true) → 1 ≤ digitsVal ds →
        extractOperators ("-- opt $".toList ++ ds) =
          .ok [.optional (digitsVal ds - 1)])
    ∧ (∀ sql : List Char, (∀ line ∈ splitLines sql, operatorLineParams? line = none) →
        extractOperators sql = .ok [])
    ∧ (∀ sql st : List Char, st ∈ statementsOf sql → hasDoubleDash st = false) := by
  refine ⟨?_, ?_, fun sql st h => statements_no_dd sql st h⟩
  · intro ds hne hd hval
    have hlit : ∀ c ∈ "-- opt $".toList, ¬c = '\n' := by decide
    have hnonl : ∀ c ∈ ("-- opt $".toList ++ ds), c ≠ '\n' := by
      intro c hc
      rcases List.mem_append.mp hc with h1 | h2
      · exact hlit c h1
      · exact (digit_ne c (hd c h2)).2
    rw [extractOperators, splitLines_no_newline _ hnonl]
    have hline : operatorLineParams? ("-- opt $".toList ++ ds) = some ('$' :: ds) := rfl
    simp only [List.filterMap_cons, hline, List.filterMap_nil, List.map_cons, List.map_nil]
    rw [operatorTryFrom_opt_digits ds hne hd, if_neg (by omega)]
    rfl
  · intro sql h
    rw [extractOperators]
    have : (splitLines sql).filterMap operatorLineParams? = [] := by
      rw [List.filterMap_eq_nil_iff]
      exact h
    rw [this]
    rfl

/-- C7 witness: the concrete directive `-- opt $2` produces exactly the
marker with stored index 1. -/
theorem c7_amended_directive_lines_witness :
    extractOperators ("-- opt $".toList ++ "2".toList) =
      .ok [.optional (digitsVal "2".toList - 1)] :=
  c7_amended_directive_lines.1 "2".toList (by decide) (by decide) (by decide)

theorem statementsOf_eq_spec (sql : List Char) : statementsOf sql = statementsSpec sql := by
  unfold statementsOf statementsSpec
  generalize splitInclusive ';' (stripComments sql) = L
  induction L with
  | nil => rfl
  | cons a L ih =>
    by_cases he : (trim a).isEmpty
    · simp only [List.filterMap_cons, List.map_cons, List.filter_cons, he]
      simpa using ih
    · simp only [List.filterMap_cons, List.map_cons, List.filter_cons, he]
      simp only [ih]
      simp [he]

/-- C9. For every operation body the computed statement list equals the
specification's description: split the comment-stripped text on `;`
keeping the delimiter, trim each fragment, drop the empty fragments; and
when that list is empty, `Operation::new` fails with a `NoStatements`
error naming the operation. -/
theorem c9_statement_splitting (name sql : List Char) (client : DbClient)
    (ops : List Operator) (hops : extractOperators sql = .ok ops) :
    statementsOf sql = statementsSpec sql
    ∧ (statementsSpec sql = [] →
        operationNew name sql client = .err ⟨some name, .noStatements⟩) := by
  have heq : statementsOf sql = statementsSpec sql := statementsOf_eq_spec sql
  refine ⟨heq, fun hempty => ?_⟩
  simp [operationNew, hops, heq, hempty]

/-- C9 witness: a body consisting of one comment line has no statements
and construction fails with `NoStatements` naming the operation. -/
theorem c9_statement_splitting_witness :
    operationNew ("op".toList) ("-- c".toList) trivialClient =
      .err ⟨some ("op".toList), .noStatements⟩ :=
  (c9_statement_splitting ("op".toList) ("-- c".toList) trivialClient []
    (by decide)).2 (by decide)

/-- C6 counterexample: the claim that every array type synthesizes a
sequence of length exactly 4 and every temporal type a fixed literal
constant is false: `bytea[]` synthesizes a 2-element array
(`vec![bytes; 2]`) and `timestamptz` synthesizes the wall clock
(`jiff::Timestamp::now()`), not a fixed literal. -/
theorem c6_synthesis_counterexample :
    ¬(∀ t : PgType, isArrayType t = true → synthArrayLen t = some 4)
    ∧ ¬(∀ t : PgType, isTemporalType t = true → synthTemporalFixed t = some true) := by
  constructor
  · intro h1
    have ha := h1 .byteaArray rfl
    simp [synthArrayLen, dataForType, payloadArrayLen] at ha
  · intro h2
    have hb := h2 .timestamptz rfl
    simp [synthTemporalFixed, dataForType, payloadFixedTemporal] at hb

/-- C6 (amended). The synthesized value shapes of `data_for_type`: random
sequences of length exactly 32 for the `bytea` and `text`/`varchar`
scalars; arrays of length exactly 4 for every array type except
`bytea[]`, which has length 2; fixed literal (not wall-clock) temporal
constants for every temporal type except `timestamptz` and
`timestamptz[]`, which use the wall clock; and a freshly generated UUID
for the uuid types. -/
theorem c6_synthesis_shapes (t : PgType) :
    (isArrayType t = true →
      synthArrayLen t = some (if t = PgType.byteaArray then 2 else 4))
    ∧ ((t = PgType.bytea ∨ t = PgType.text ∨ t = PgType.varchar) →
      synthRandLen t = some 32)
    ∧ (isTemporalType t = true → t ≠ PgType.timestamptz →
        t ≠ PgType.timestamptzArray → synthTemporalFixed t = some true)
    ∧ (synthTemporalFixed PgType.timestamptz = some false
       ∧ synthTemporalFixed PgType.timestamptzArray = some false)
    ∧ (dataForType PgType.uuid = some SynthPayload.freshUuid
       ∧ dataForType PgType.uuidArray = some (SynthPayload.arrayRepl SynthPayload.freshUuid 4)) := by
  cases t <;>
    simp [isArrayType, isTemporalType, synthArrayLen, synthRandLen, synthTemporalFixed,
      dataForType, payloadArrayLen, payloadRandLen, payloadFixedTemporal]

/-- C6 witness: concrete instances of the amended shape claims at
`bytea[]`, `text`, and `timestamp`. -/
theorem c6_synthesis_shapes_witness :
    synthArrayLen PgType.byteaArray = some 2
    ∧ synthRandLen PgType.text = some 32
    ∧ synthTemporalFixed PgType.timestamp = some true :=
  ⟨by simpa using (c6_synthesis_shapes PgType.byteaArray).1 rfl,
   (c6_synthesis_shapes PgType.text).2.1 (Or.inr (Or.inl rfl)),
   (c6_synthesis_shapes PgType.timestamp).2.2.1 rfl (by decide) (by decide)⟩

/-- C4. In the validation loop of `Operation::new`, a prepare failure is
always a hard failure carrying the statement index and the database
diagnostic; an execute failure is tolerated — the loop moves on to the
next statement — exactly when the reported code is
`FOREIGN_KEY_VIOLATION` or `CHECK_VIOLATION`, and every other execute
failure is a hard failure for the whole operation carrying the statement
index and the diagnostic. -/
theorem c4_execution_whitelist :
    (∀ (client : DbClient) (name st : List Char) (rest : List (List Char))
        (idx : Nat) (acc : List PgType) (e : PgError),
      client.prepare st = .error e →
      newLoop client name (st :: rest) idx acc = .err ⟨some name, .invalidSql idx e⟩)
    ∧ (∀ (client : DbClient) (name st : List Char) (rest : List (List Char))
        (idx : Nat) (acc ps : List PgType) (e : PgError),
      client.prepare st = .ok ps →
      acc.length ≤ ps.length →
      checkParams (extendParams acc ps) ps 0 = .ok →
      client.execute st = some e →
      ((e.code = some .foreignKeyViolation ∨ e.code = some .checkViolation) →
        newLoop client name (st :: rest) idx acc =
          newLoop client name rest (idx + 1) (extendParams acc ps))
      ∧ (¬(e.code = some .foreignKeyViolation ∨ e.code = some .checkViolation) →
        newLoop client name (st :: rest) idx acc =
          .err ⟨some name, .invalidSql idx e⟩)) := by
  constructor
  · intro client name st rest idx acc e hprep
    simp [newLoop, hprep]
  · intro client name st rest idx acc ps e hprep hle hcheck hexec
    constructor
    · intro hcode
      simp [newLoop, hprep, Nat.not_lt.mpr hle, hcheck, hexec, hcode]
    · intro hcode
      simp [newLoop, hprep, Nat.not_lt.mpr hle, hcheck, hexec, hcode]

/-- C4 witness: against a database whose execute reports the
non-whitelisted code 42P01, the loop fails hard with the statement index
and that diagnostic. -/
theorem c4_execution_whitelist_witness :
    newLoop
        ⟨fun _ => Except.ok [],
         fun _ => some ⟨some (SqlState.otherCode "42P01"), "relation does not exist"⟩⟩
        ("op".toList) ["SELECT 1;".toList] 0 [] =
      .err ⟨some ("op".toList),
        .invalidSql 0 ⟨some (SqlState.otherCode "42P01"), "relation does not exist"⟩⟩ :=
  (c4_execution_whitelist.2
      ⟨fun _ => Except.ok [],
       fun _ => some ⟨some (SqlState.otherCode "42P01"), "relation does not exist"⟩⟩
      ("op".toList) ("SELECT 1;".toList) [] 0 [] []
      ⟨some (SqlState.otherCode "42P01"), "relation does not exist"⟩
      rfl (Nat.le_refl 0) rfl rfl).2 (by decide)

theorem check_refl (ps : List PgType) :
    ∀ i : Nat, (∀ t ∈ ps, (dataForType t).isSome = true) →
      checkParams ps ps i = .ok := by
  induction ps with
  | nil => intro i _; rfl
  | cons p ps ih =>
    intro i hs
    obtain ⟨v, hv⟩ := Option.isSome_iff_exists.mp (hs p (List.mem_cons_self p ps))
    simp [checkParams, hv, ih (i + 1) (fun t ht => hs t (List.mem_cons_of_mem p ht))]

theorem extend_nil (ps : List PgType) : extendParams [] ps = ps := by
  simp [extendParams]

theorem extend_cons (a : PgType) (as : List PgType) (p : PgType) (ps : List PgType) :
    extendParams (a :: as) (p :: ps) = a :: extendParams as ps := by
  simp [extendParams, List.drop_succ_cons]

theorem extendParams_length (acc ps : List PgType) (hle : acc.length ≤ ps.length) :
    (extendParams acc ps).length = ps.length := by
  simp [extendParams]
  omega

theorem check_eq (acc : List PgType) :
    ∀ (ps : List PgType) (i : Nat), acc.length ≤ ps.length →
      (∀ t ∈ ps, (dataForType t).isSome = true) →
      checkParams (extendParams acc ps) ps i =
        match findDisagree acc ps i with
        | some (pi, e, r) => .mismatch pi e r
        | none => .ok := by
  induction acc with
  | nil =>
    intro ps i _ hs
    have h2 : findDisagree [] ps i = none := by cases ps <;> rfl
    rw [extend_nil, h2]
    exact check_refl ps i hs
  | cons a as ih =>
    intro ps i hle hs
    cases ps with
    | nil => simp at hle
    | cons p ps' =>
      rw [extend_cons]
      by_cases hpa : p = a
      · subst hpa
        obtain ⟨v, hv⟩ := Option.isSome_iff_exists.mp (hs p (List.mem_cons_self p ps'))
        have hle' : as.length ≤ ps'.length := by simpa using hle
        have hs' : ∀ t ∈ ps', (dataForType t).isSome = true :=
          fun t ht => hs t (List.mem_cons_of_mem p ht)
        simp only [checkParams, findDisagree]
        simp [hv, ih ps' (i + 1) hle' hs']
      · simp [checkParams, findDisagree, hpa]

theorem newLoop_char (client : DbClient) (name : List Char) :
    ∀ (txts : List (List Char)) (stmts : List (List PgType)) (idx : Nat)
      (acc : List PgType),
      txts.length = stmts.length →
      (∀ p ∈ txts.zip stmts, client.prepare p.1 = .ok p.2) →
      (∀ st, client.execute st = none) →
      (∀ ps ∈ stmts, ∀ t ∈ ps, (dataForType t).isSome = true) →
      lengthsExtend acc.length stmts →
      newLoop client name txts idx acc =
        match firstDisagreement acc idx stmts with
        | none => .ok (stmts.foldl extendParams acc)
        | some (si, pi, e, r) =>
            .err ⟨some name, .mismatchedParams si pi (pgTypeName e) (pgTypeName r)⟩ := by
  intro txts
  induction txts with
  | nil =>
    intro stmts idx acc hlen _ _ _ _
    have hstmts : stmts = [] := by
      cases stmts with
      | nil => rfl
      | cons a l => simp at hlen
    subst hstmts
    simp [newLoop, firstDisagreement]
  | cons st txts ih =>
    intro stmts idx acc hlen hprep hexec hsupp hext
    cases stmts with
    | nil => simp at hlen
    | cons ps stmts' =>
      have hlen' : txts.length = stmts'.length := by simpa using hlen
      have hprep0 : client.prepare st = .ok ps := hprep (st, ps) (by simp)
      have hprep' : ∀ p ∈ txts.zip stmts', client.prepare p.1 = .ok p.2 :=
        fun p hp => hprep p (by simp [hp])
      have hle : acc.length ≤ ps.length := hext.1
      have hsupp0 : ∀ t ∈ ps, (dataForType t).isSome = true := hsupp ps (by simp)
      have hsupp' : ∀ q ∈ stmts', ∀ t ∈ q, (dataForType t).isSome = true :=
        fun q hq => hsupp q (List.mem_cons_of_mem ps hq)
      have hchk := check_eq acc ps 0 hle hsupp0
      have hext' : lengthsExtend (extendParams acc ps).length stmts' := by
        rw [extendParams_length acc ps hle]
        exact hext.2
      cases hfd : findDisagree acc ps 0 with
      | none =>
        rw [hfd] at hchk
        have hrec := ih stmts' (idx + 1) (extendParams acc ps) hlen' hprep' hexec hsupp' hext'
        simp only [newLoop, hprep0, Nat.not_lt.mpr hle, if_false, hchk, hexec st]
        rw [hrec]
        simp [firstDisagreement, hfd]
      | some x =>
        obtain ⟨pi, e, r⟩ := x
        rw [hfd] at hchk
        simp only [newLoop, hprep0, Nat.not_lt.mpr hle, if_false, hchk]
        simp [firstDisagreement, hfd]

/-- C1. Over the database-reported parameter lists of an operation's
statements, the first statement establishes the running parameter-type
vector and each subsequent statement appends its new positions; when no
statement disagrees with the running vector at a shared position,
construction succeeds and the operation's parameters are the accumulated
vector, and the first disagreement at a shared position makes
`Operation::new` fail with a `MismatchedParams` error carrying the
statement index, the parameter index, and the two conflicting type
names. -/
theorem c1_parameter_reconciliation
    (name sql : List Char) (client : DbClient) (ops : List Operator)
    (stmts : List (List PgType))
    (hops : extractOperators sql = .ok ops)
    (hne : statementsOf sql ≠ [])
    (hlen : (statementsOf sql).length = stmts.length)
    (hprep : ∀ p ∈ (statementsOf sql).zip stmts, client.prepare p.1 = .ok p.2)
    (hexec : ∀ st, client.execute st = none)
    (hsupp : ∀ ps ∈ stmts, ∀ t ∈ ps, (dataForType t).isSome = true)
    (hext : lengthsExtend 0 stmts) :
    (firstDisagreement [] 0 stmts = none →
      operationNew name sql client = .ok ⟨name, statementsOf sql, runningVec stmts, ops⟩)
    ∧ (∀ si pi e r, firstDisagreement [] 0 stmts = some (si, pi, e, r) →
      operationNew name sql client =
        .err ⟨some name, .mismatchedParams si pi (pgTypeName e) (pgTypeName r)⟩) := by
  have hloop := newLoop_char client name (statementsOf sql) stmts 0 [] hlen hprep hexec
    hsupp hext
  have hifempty : (statementsOf sql).isEmpty = false := by
    cases h : statementsOf sql with
    | nil => exact absurd h hne
    | cons a l => rfl
  constructor
  · intro hfd
    rw [hfd] at hloop
    simp [operationNew, hops, hifempty, hloop, runningVec]
  · intro si pi e r hfd
    rw [hfd] at hloop
    simp [operationNew, hops, hifempty, hloop]

/-- C1 witness: two statements whose reported parameter lists are
`[int4]` and `[text]` disagree at shared position 0, so construction
fails with `MismatchedParams` at statement index 1, parameter index 0,
naming `int4` (expected) and `text` (real). -/
theorem c1_parameter_reconciliation_witness :
    operationNew ("op".toList) ("SELECT $1;\nSELECT $2;".toList)
        ⟨fun st => if st = "SELECT $1;".toList then Except.ok [PgType.int4]
                   else Except.ok [PgType.text],
         fun _ => none⟩ =
      .err ⟨some ("op".toList),
        .mismatchedParams 1 0 (pgTypeName PgType.int4) (pgTypeName PgType.text)⟩ :=
  (c1_parameter_reconciliation ("op".toList) ("SELECT $1;\nSELECT $2;".toList)
      ⟨fun st => if st = "SELECT $1;".toList then Except.ok [PgType.int4]
                 else Except.ok [PgType.text],
       fun _ => none⟩
      [] [[PgType.int4], [PgType.text]]
      (by decide) (by decide) (by decide) (by decide) (fun _ => rfl)
      (by decide) (by decide)).2 1 0 PgType.int4 PgType.text (by decide)

theorem splitAtHeaders_head (ls : List (List Char)) :
    ∃ rest, splitAtHeaders ls = (ls.takeWhile fun l => !isHeader l) :: rest := by
  induction ls with
  | nil => exact ⟨[], rfl⟩
  | cons l ls ih =>
    obtain ⟨rest, hrest⟩ := ih
    by_cases hh : isHeader l
    · refine ⟨(ls.takeWhile fun x => !isHeader x) :: rest, ?_⟩
      rw [splitAtHeaders, hrest]
      simp [hh, List.takeWhile_cons]
    · refine ⟨rest, ?_⟩
      rw [splitAtHeaders, hrest]
      simp [hh, List.takeWhile_cons]

theorem zip_titles_bodies (lines : List (List Char)) :
    (lines.filterMap headerTitle?).zip ((splitAtHeaders lines).drop 1) =
      headersWithSegments lines := by
  induction lines with
  | nil => rfl
  | cons l ls ih =>
    obtain ⟨rest, hrest⟩ := splitAtHeaders_head ls
    have hdrop : (splitAtHeaders ls).drop 1 = rest := by rw [hrest]; rfl
    cases hh : headerTitle? l with
    | some t =>
      have hih : isHeader l = true := by simp [isHeader, hh]
      rw [List.filterMap_cons_some hh]
      rw [splitAtHeaders, hrest]
      have hws : headersWithSegments (l :: ls) =
          (t, ls.takeWhile fun x => !isHeader x) :: headersWithSegments ls := by
        rw [headersWithSegments, hh]
      simp only [hih, if_true, List.drop_succ_cons, List.drop_zero, hws]
      rw [List.zip_cons_cons, ← ih, hdrop]
    | none =>
      have hih : isHeader l = false := by simp [isHeader, hh]
      rw [List.filterMap_cons_none hh]
      rw [splitAtHeaders, hrest]
      have hws : headersWithSegments (l :: ls) = headersWithSegments ls := by
        rw [headersWithSegments, hh]
      simp only [hih, Bool.false_eq_true, if_false, List.drop_succ_cons, List.drop_zero, hws]
      rw [← ih, hdrop]

theorem splitAtHeaders_length (ls : List (List Char)) :
    (splitAtHeaders ls).length = (ls.filterMap headerTitle?).length + 1 := by
  induction ls with
  | nil => rfl
  | cons l ls ih =>
    obtain ⟨rest, hrest⟩ := splitAtHeaders_head ls
    cases hh : headerTitle? l with
    | some t =>
      have hih : isHeader l = true := by simp [isHeader, hh]
      rw [List.filterMap_cons_some hh]
      rw [splitAtHeaders, hrest]
      simp only [hih, if_true, List.length_cons]
      rw [hrest] at ih
      simp only [List.length_cons] at ih
      omega
    | none =>
      have hih : isHeader l = false := by simp [isHeader, hh]
      rw [List.filterMap_cons_none hh]
      rw [splitAtHeaders, hrest]
      simp only [hih, Bool.false_eq_true, if_false, List.length_cons]
      rw [hrest] at ih
      simp only [List.length_cons] at ih
      omega

theorem headersWith_length (lines : List (List Char)) :
    (headersWithSegments lines).length = (lines.filterMap headerTitle?).length := by
  rw [← zip_titles_bodies, List.length_zip, List.length_drop, splitAtHeaders_length]
  simp

theorem parseOperations_length (ident : List Char → List Char) (client : DbClient) :
    ∀ (pairs : List (List Char × List (List Char))) (ops : List Operation),
      parseOperations ident client pairs = .ok ops → ops.length = pairs.length := by
  intro pairs
  induction pairs with
  | nil =>
    intro ops h
    simp only [parseOperations] at h
    cases h
    rfl
  | cons pair rest ih =>
    intro ops h
    obtain ⟨title, body⟩ := pair
    simp only [parseOperations] at h
    cases hop : operationNew (ident title) (trim (joinLines body)) client with
    | ok op =>
      rw [hop] at h
      cases hrec : parseOperations ident client rest with
      | ok ops' =>
        rw [hrec] at h
        cases h
        simp [ih ops' hrec]
      | err e => rw [hrec] at h; cases h
      | panics => rw [hrec] at h; cases h
    | err e => rw [hop] at h; cases h
    | panics => rw [hop] at h; cases h

/-- C5. Splitting a document: parsing fails with `NoHeaders` exactly when
the document has no header line; with at least one header the split
succeeds, pairing each header's title, in order, with the lines up to the
next header (the text before the first header is in no pair), and the
number of pairs — and of parsed operations when the whole group parse
succeeds — equals the number of header lines. -/
theorem c5_document_split (lines : List (List Char)) :
    (splitDocument lines = .error ⟨none, .noHeaders⟩ ↔
      ∀ line ∈ lines, headerTitle? line = none)
    ∧ (lines.filterMap headerTitle? ≠ [] →
        splitDocument lines = .ok (headersWithSegments lines)
        ∧ (headersWithSegments lines).length = (lines.filterMap headerTitle?).length)
    ∧ (∀ (ident : List Char → List Char) (client : DbClient) (ops : List Operation),
        parseGroup ident client lines = .ok ops →
        ops.length = (lines.filterMap headerTitle?).length) := by
  have hblen : ((splitAtHeaders lines).drop 1).length =
      (lines.filterMap headerTitle?).length := by
    rw [List.length_drop, splitAtHeaders_length]
    simp
  have hok : lines.filterMap headerTitle? ≠ [] →
      splitDocument lines = .ok (headersWithSegments lines) := by
    intro hne
    have hempty : (lines.filterMap headerTitle?).isEmpty = false := by
      cases h : lines.filterMap headerTitle? with
      | nil => exact absurd h hne
      | cons a l => rfl
    have hcond : ¬((lines.filterMap headerTitle?).length ≠
        ((splitAtHeaders lines).drop 1).length) := by
      rw [hblen]
      exact fun hx => hx rfl
    simp only [splitDocument, hempty, Bool.false_eq_true, if_false, hcond]
    rw [zip_titles_bodies]
  refine ⟨⟨?_, ?_⟩, ?_, ?_⟩
  · intro h
    by_cases hne' : lines.filterMap headerTitle? = []
    · exact List.filterMap_eq_nil_iff.mp hne'
    · rw [hok hne'] at h
      cases h
  · intro hall
    have hnil : lines.filterMap headerTitle? = [] := List.filterMap_eq_nil_iff.mpr hall
    simp [splitDocument, hnil]
  · intro hne
    exact ⟨hok hne, headersWith_length lines⟩
  · intro ident client ops h
    rw [parseGroup] at h
    cases hsd : splitDocument lines with
    | error e => rw [hsd] at h; cases h
    | ok pairs =>
      rw [hsd] at h
      by_cases hne' : lines.filterMap headerTitle? = []
      · have : splitDocument lines = .error ⟨none, .noHeaders⟩ := by
          simp [splitDocument, hne']
        rw [this] at hsd
        cases hsd
      · have hpairs : pairs = headersWithSegments lines := by
          rw [hok hne'] at hsd
          cases hsd
          rfl
        rw [parseOperations_length ident client pairs ops h, hpairs,
          headersWith_length]

/-- C5 witness: a document with a discarded preamble and two headers
splits into exactly two operations whose bodies are the lines up to the
next header. -/
theorem c5_document_split_witness :
    splitDocument (["junk", "--- a", "x;", "--- b", "y;"].map String.toList) =
      .ok (headersWithSegments (["junk", "--- a", "x;", "--- b", "y;"].map String.toList))
    ∧ (headersWithSegments (["junk", "--- a", "x;", "--- b", "y;"].map
        String.toList)).length =
      ((["junk", "--- a", "x;", "--- b", "y;"].map String.toList).filterMap
        headerTitle?).length :=
  (c5_document_split (["junk", "--- a", "x;", "--- b", "y;"].map String.toList)).2.1
    (by decide)

theorem runTests_inner (client : DbClient) (m : List OldOperation) :
    ∀ acc : List Bool × Bool,
      m.foldl (fun acc2 op =>
          let v := isValid client op.2
          (acc2.1 ++ [v], acc2.2 && v)) acc =
        (acc.1 ++ m.map fun op => isValid client op.2,
         acc.2 && m.all fun op => isValid client op.2) := by
  induction m with
  | nil => intro acc; simp
  | cons op m ih =>
    intro acc
    rw [List.foldl_cons, ih]
    simp [List.append_assoc, Bool.and_assoc]

theorem runTests_eq (client : DbClient) (modules : List (List OldOperation)) :
    runTests client modules =
      (modules.flatten.map fun op => isValid client op.2,
       modules.flatten.all fun op => isValid client op.2) := by
  have houter : ∀ (ms : List (List OldOperation)) (acc : List Bool × Bool),
      ms.foldl (fun acc m =>
          m.foldl (fun acc2 op =>
            let v := isValid client op.2
            (acc2.1 ++ [v], acc2.2 && v)) acc) acc =
        (acc.1 ++ ms.flatten.map fun op => isValid client op.2,
         acc.2 && ms.flatten.all fun op => isValid client op.2) := by
    intro ms
    induction ms with
    | nil => intro acc; simp
    | cons m ms ih =>
      intro acc
      rw [List.foldl_cons, runTests_inner, ih]
      simp [List.flatten_cons, List.map_append, List.all_append,
        List.append_assoc, Bool.and_assoc]
  simpa [runTests] using houter modules ([], true)

/-- C8 counterexample: in the grouped parser a `NoStatements` failure in
the second operation aborts the whole document parse — the first
operation, although it constructs successfully on its own, is lost — so
it is not true that only `NoHeaders` and `HeaderBodyMismatch` abort the
whole document. -/
theorem c8_whole_document_abort_counterexample :
    parseGroup id trivialClient (["--- a", "SELECT 1;", "--- b"].map String.toList) =
      .err ⟨some ("b".toList), .noStatements⟩
    ∧ operationNew ("a".toList) ("SELECT 1;".toList) trivialClient =
        .ok ⟨"a".toList, ["SELECT 1;".toList], [], []⟩ :=
  ⟨by decide, by decide⟩

/-- C8 (amended). The batch validation runner validates every operation
of every module — no failure stops the run — reporting each operation's
outcome in document order, and its final status is the logical AND of all
per-operation outcomes; a document without any header aborts as a whole
with `NoHeaders` (and, in the grouped parser, any per-operation
construction failure likewise aborts the whole document parse). -/
theorem c8_batch_and_propagation :
    (∀ (client : DbClient) (modules : List (List OldOperation)),
      (runTests client modules).1 = (modules.flatten.map fun op => isValid client op.2)
      ∧ (runTests client modules).2 = (modules.flatten.all fun op => isValid client op.2))
    ∧ (∀ (ident : List Char → List Char) (client : DbClient) (lines : List (List Char)),
        (∀ line ∈ lines, headerTitle? line = none) →
        parseGroup ident client lines = .err ⟨none, .noHeaders⟩) := by
  constructor
  · intro client modules
    rw [runTests_eq]
    exact ⟨rfl, rfl⟩
  · intro ident client lines hall
    have hnil := List.filterMap_eq_nil_iff.mpr hall
    simp [parseGroup, splitDocument, hnil]

/-- C8 witness: a headerless document aborts the whole parse with
`NoHeaders`. -/
theorem c8_batch_and_propagation_witness :
    parseGroup id trivialClient (["SELECT 1;"].map String.toList) =
      .err ⟨none, .noHeaders⟩ :=
  c8_batch_and_propagation.2 id trivialClient (["SELECT 1;"].map String.toList)
    (by decide)
